import Mathlib

/-!
Shallow embedding of the core of `complete_website_analyzer.py`:
error detection and retry policy, link extraction/normalization and
classification, the primary-maps-link selector, and the breadth-first
crawl loop of `ComprehensiveLinkDiscoverer.discover_all_links`.
Python strings are modelled as `String`/`List Char`, machine ints as
`Nat`, fallible calls as `Option`/`Except`, and the crawl loop as a
fuel-indexed step function together with an inductive reachability
relation.
-/

set_option maxRecDepth 16384

namespace WebsiteAnalyzer

/-! ### String helpers (Python `in`, `str.lower`, `str.startswith`, `str.replace`) -/

/-- `listIsPrefixOf pat s`: `pat` is a prefix of `s` (character lists). -/
def listIsPrefixOf : List Char → List Char → Bool
  | [], _ => true
  | _ :: _, [] => false
  | p :: ps, c :: cs => p == c && listIsPrefixOf ps cs

/-- Python `pat in s` substring test, on character lists. -/
def listContainsSub (pat : List Char) : List Char → Bool
  | [] => listIsPrefixOf pat []
  | c :: cs => listIsPrefixOf pat (c :: cs) || listContainsSub pat cs

/-- Python `pat in s` substring test, on strings. -/
def strContainsSub (pat s : String) : Bool :=
  listContainsSub pat.toList s.toList

/-- Python `s.lower()` (character-wise, adequate for the ASCII data here). -/
def strLower (s : String) : String :=
  String.mk (s.toList.map Char.toLower)

/-- Python `s.startswith(pat)`. -/
def strStartsWith (pat s : String) : Bool :=
  listIsPrefixOf pat.toList s.toList

/-- Python `s.endswith(pat)`. -/
def strEndsWith (pat s : String) : Bool :=
  listIsPrefixOf pat.toList.reverse s.toList.reverse

/-- Python `s.strip()`: whitespace removed from both ends. -/
def strTrim (s : String) : String :=
  String.mk (((s.toList.dropWhile Char.isWhitespace).reverse.dropWhile
    Char.isWhitespace).reverse)

/-! ### Error-pattern detection (`ERROR_PATTERNS`, `detect_page_errors`) -/

/-- The `ERROR_PATTERNS` list of the source, verbatim. -/
def ERROR_PATTERNS : List String :=
  [ "520: Web server is returning an unknown error"
  , "Just a moment..."
  , "Not Found"
  , "Access Denied"
  , "Service Unavailable"
  , "Cloudflare"
  , "captcha"
  , "security check"
  , "Page Not Found"
  , "404 Error"
  , "503 Service Unavailable" ]

/-- One step of the regex model: does the pattern match at the head of `s`?
The only regex metacharacter appearing in `ERROR_PATTERNS` is `.`
(match any character); all other characters are literal and matching is
case-sensitive, as in Python `re.search` without flags. -/
def patMatchesAt : List Char → List Char → Bool
  | [], _ => true
  | _ :: _, [] => false
  | p :: ps, c :: cs => (p == '.' || p == c) && patMatchesAt ps cs

/-- `re.search(pat, s)`: the pattern matches at some position of `s`. -/
def regexSearch (pat : List Char) : List Char → Bool
  | [] => patMatchesAt pat []
  | c :: cs => patMatchesAt pat (c :: cs) || regexSearch pat cs

/-- `detect_page_errors(html)`: searches every `ERROR_PATTERNS` entry in
`html.lower()` (the patterns themselves are *not* lowercased). -/
def detect_page_errors (html : String) : Bool :=
  ERROR_PATTERNS.any fun p => regexSearch p.toList (strLower html).toList

/-- `should_retry_fetch(status_code, html)`. -/
def should_retry_fetch (status_code : Nat) (html : String) : Bool :=
  if [429, 500, 502, 503, 504].contains status_code then true
  else if detect_page_errors html then true
  else false

/-- The `error_type` string computed by `handle_fetch_error(url, status_code,
html, attempt, max_retries)`: the elif chain over the raw (not lowercased)
html, except the captcha/security-check test which lowercases. -/
def handle_fetch_error_type (html : String) : String :=
  if strContainsSub "520: Web server is returning an unknown error" html then
    "520 Unknown Server Error"
  else if strContainsSub "Just a moment..." html then "Cloudflare Challenge"
  else if strContainsSub "Access Denied" html then "Access Denied"
  else if strContainsSub "Service Unavailable" html then "Service Unavailable"
  else if strContainsSub "Cloudflare" html then "Cloudflare Protection"
  else if strContainsSub "captcha" (strLower html)
          || strContainsSub "security check" (strLower html) then
    "CAPTCHA Challenge"
  else if strContainsSub "Not Found" html || strContainsSub "Page Not Found" html
          || strContainsSub "404 Error" html then
    "404 Not Found"
  else if strContainsSub "503 Service Unavailable" html then
    "503 Service Unavailable"
  else "UNKNOWN"

/-! ### Fetch layer (`fetch_with_error_handling`, `EnhancedHTTPClient.get_with_retry`) -/

/-- Outcome of one HTTP attempt: a raised `RequestException`, or a response
with a status code and body text. -/
inductive FetchOutcome where
  | exc : FetchOutcome
  | resp : Nat → String → FetchOutcome
deriving DecidableEq, Repr

/-- `fetch_with_error_handling(url, max_retries)` over the sequence of
attempt outcomes (one list entry per loop iteration of
`for attempt in range(max_retries)`); backoff sleeps and logging are
time-only effects and not modelled. A response whose body triggers
`detect_page_errors` is handled and the loop continues; any other
response is returned as-is; after the loop `(None, None)`. -/
def fetch_with_error_handling : List FetchOutcome → Option String × Option Nat
  | [] => (none, none)
  | .exc :: rest => fetch_with_error_handling rest
  | .resp status html :: rest =>
    if detect_page_errors html then fetch_with_error_handling rest
    else (some html, some status)

/-- `EnhancedHTTPClient.get_with_retry(url, retries)` over the sequence of
attempt outcomes. Returns the body on status 200 with body length above
`minHtmlLength` (`config.MIN_HTML_LENGTH`); returns `(None, status)` at
once on status 403/404/500/503; otherwise falls through to the next
attempt. After the loop `(None, None)`. -/
def get_with_retry (minHtmlLength : Nat) :
    List FetchOutcome → Option String × Option Nat
  | [] => (none, none)
  | .exc :: rest => get_with_retry minHtmlLength rest
  | .resp status html :: rest =>
    if status == 200 && decide (minHtmlLength < html.length) then
      (some html, some status)
    else if [403, 404, 500, 503].contains status then (none, some status)
    else get_with_retry minHtmlLength rest

/-- `config.MIN_HTML_LENGTH` in `EnhancedAnalyzerConfig`. -/
def MIN_HTML_LENGTH : Nat := 1000

/-- `config.MAX_RETRIES` in `EnhancedAnalyzerConfig`. -/
def MAX_RETRIES : Nat := 3

/-! ### URL parsing (`urllib.parse.urlparse` / `urljoin`, as used by the source) -/

/-- Characters before the first `':'` of a URL, or `none` if there is no `':'`. -/
def beforeColon : List Char → Option (List Char)
  | [] => none
  | c :: cs => if c = ':' then some [] else (beforeColon cs).map (c :: ·)

/-- A valid URL scheme: a letter followed by letters, digits, `+`, `-`, `.`. -/
def isSchemeChars : List Char → Bool
  | [] => false
  | c :: cs =>
    c.isAlpha && cs.all fun d => d.isAlpha || d.isDigit || d == '+' || d == '-' || d == '.'

/-- `urlparse(url).scheme` (lowercased, `""` when absent). -/
def schemeOf (url : String) : String :=
  match beforeColon url.toList with
  | some l => if isSchemeChars l then String.mk (l.map Char.toLower) else ""
  | none => ""

/-- The URL with its `scheme:` prefix removed (unchanged when there is none). -/
def dropScheme (url : String) : List Char :=
  match beforeColon url.toList with
  | some l => if isSchemeChars l then url.toList.drop (l.length + 1) else url.toList
  | none => url.toList

/-- `urlparse(url).netloc`: the authority after `//`, up to `/`, `?` or `#`
(`""` when the URL has no `//` part). -/
def netlocOf (url : String) : String :=
  let r := dropScheme url
  if listIsPrefixOf ['/', '/'] r then
    String.mk ((r.drop 2).takeWhile fun c => !(c == '/' || c == '?' || c == '#'))
  else ""

/-- Python `s.replace("www.", "")`: removes every (leftmost, non-overlapping)
occurrence of `"www."`, as the source applies to netlocs. -/
def replaceWWWList : List Char → List Char
  | 'w' :: 'w' :: 'w' :: '.' :: rest => replaceWWWList rest
  | c :: cs => c :: replaceWWWList cs
  | [] => []

/-- `netloc.replace("www.", "")` on strings. -/
def stripWWW (s : String) : String :=
  String.mk (replaceWWWList s.toList)

/-- `scheme://netloc` of an absolute base URL. -/
def schemeRoot (base : String) : String :=
  schemeOf base ++ "://" ++ netlocOf base

/-- The path of `l` up to and including its last `'/'` (`[]` when none). -/
def upToLastSlash (l : List Char) : List Char :=
  ((l.reverse.dropWhile fun c => !(c == '/')).reverse)

/-- Model of `urllib.parse.urljoin(base, href)` for the reference forms the
source feeds it: a reference carrying its own scheme is returned as-is;
a network-path (`//…`) reference takes the base scheme; a root-relative
reference (`/…`) is resolved against `scheme://netloc` of the base; any
other reference replaces the last path segment of the base. Query/dot-segment
refinements of the library function are outside the claims and not modelled. -/
def urljoin (base href : String) : String :=
  if schemeOf href != "" then href
  else if strStartsWith "//" href then schemeOf base ++ ":" ++ href
  else if strStartsWith "/" href then schemeRoot base ++ href
  else
    let path := upToLastSlash ((String.mk (dropScheme base)).toList.drop
      ("//".length + (netlocOf base).length))
    schemeRoot base ++ String.mk (if path.isEmpty then ['/'] else path) ++ href

/-- `full_url.split('#')[0]`: everything before the first `'#'`. -/
def beforeHash (url : String) : String :=
  String.mk (url.toList.takeWhile fun c => !(c == '#'))

/-! ### `LinkInfo` and the extraction tables of `extract_clickable_links` -/

/-- The `LinkInfo` dataclass. -/
structure LinkInfo where
  url : String
  anchor_text : String := ""
  link_type : String := "internal"
  source_page : String := ""
  depth : Nat := 0
  is_navigation : Bool := false
  is_footer : Bool := false
  is_contact : Bool := false
  is_about : Bool := false
  is_google_maps : Bool := false
  context : String := ""
  menu_type : String := "body"
  css_classes : String := ""
deriving DecidableEq, Repr

/-- `SOCIAL_DOMAINS` of `extract_clickable_links` (membership is exact
domain equality, Python `in` on a set of strings). -/
def SOCIAL_DOMAINS : List String :=
  [ "facebook.com", "twitter.com", "instagram.com", "linkedin.com"
  , "youtube.com", "pinterest.com", "tumblr.com", "reddit.com"
  , "snapchat.com", "whatsapp.com", "t.me", "weibo.com", "vk.com" ]

/-- `is_maps_link(url)` of `extract_clickable_links`: four substring
patterns over the lowercased URL. -/
def is_maps_link (url : String) : Bool :=
  let u := strLower url
  strContainsSub "google.com/maps" u || strContainsSub "goo.gl/maps" u
    || strContainsSub "maps.google.com" u || strContainsSub "maps.app.goo.gl" u

/-- `contact_keywords` of `extract_clickable_links`. -/
def contact_keywords : List String :=
  [ "contact", "call us", "call", "reach us", "reach", "email", "phone"
  , "tel", "mail", "contact us" ]

/-- `about_keywords` of `extract_clickable_links`. -/
def about_keywords : List String :=
  [ "about", "about us", "about the company", "about our", "who we are"
  , "our story", "our team", "about the team" ]

/-- `parsed_base.netloc.replace('www.', '')` for a base URL. -/
def ecl_base_domain (base_url : String) : String :=
  stripWWW (netlocOf base_url)

/-- The href-normalization of `extract_clickable_links` for one anchor:
strip, skip empty / `javascript:` / `mailto:` / `tel:` targets, resolve
against the base, require an http(s) scheme, and drop the fragment.
Returns the stored URL, or `none` when the anchor is skipped. -/
def ecl_normalize (base_url href : String) : Option String :=
  let href := strTrim href
  if href == "" || strStartsWith "javascript:" href || strStartsWith "mailto:" href
      || strStartsWith "tel:" href then none
  else
    let full_url := urljoin base_url href
    if !(schemeOf full_url == "http" || schemeOf full_url == "https") then none
    else some (beforeHash full_url)

/-- The `link_type` chain of `extract_clickable_links` (lines 291–308):
internal / social / maps / contact / external. -/
def ecl_classify (base_domain full_url anchor_text : String) : String :=
  let link_domain := stripWWW (netlocOf full_url)
  if base_domain == link_domain then "internal"
  else if SOCIAL_DOMAINS.contains link_domain then "social"
  else if is_maps_link full_url then "maps"
  else
    let url_lower := strLower full_url
    let anchor_lower := strLower anchor_text
    if contact_keywords.any (fun kw =>
        strContainsSub kw url_lower || strContainsSub kw anchor_lower) then "contact"
    else "external"

/-! ### `ComprehensiveLinkDiscoverer` tables and per-link operations -/

/-- `self.social_domains` of `ComprehensiveLinkDiscoverer` (tested by
substring containment in the link domain). -/
def disc_social_domains : List String :=
  [ "facebook.com", "instagram.com", "twitter.com", "x.com"
  , "linkedin.com", "youtube.com", "tiktok.com", "pinterest.com" ]

/-- `self.contact_keywords` of `ComprehensiveLinkDiscoverer`. -/
def disc_contact_keywords : List String :=
  [ "contact", "about", "team", "staff", "location", "office"
  , "reach", "touch", "support", "help", "customer-service" ]

/-- `self.excluded_extensions` of `ComprehensiveLinkDiscoverer`. -/
def excluded_extensions : List String :=
  [ ".pdf", ".doc", ".docx", ".xls", ".xlsx", ".ppt", ".pptx"
  , ".zip", ".rar", ".tar", ".gz", ".jpg", ".jpeg", ".png"
  , ".gif", ".webp", ".svg", ".mp4", ".avi", ".mov", ".mp3" ]

/-- The mutable `SiteMap` fields touched by the crawl
(`sitemap.google_maps_info.maps_links` is inlined as `maps_links`). -/
structure SiteMapS where
  domain : String
  main_url : String
  total_pages : Nat := 0
  total_links : Nat := 0
  internal_links : List LinkInfo := []
  external_links : List LinkInfo := []
  social_links : List LinkInfo := []
  contact_links : List LinkInfo := []
  maps_links : List String := []
  crawl_depth_reached : Nat := 0
  website_structure_complexity : String := "Unknown"
deriving DecidableEq, Repr

/-- `ComprehensiveLinkDiscoverer._classify_and_store_link(link_info, sitemap)`:
sets `link_type` (and the contact/about/maps flags where the source does),
appends to the matching sitemap category, and returns the updated link and
sitemap. Python mutates one shared object, so the finally-flagged link is
what both category lists hold. -/
def classify_and_store_link (li : LinkInfo) (sm : SiteMapS) : LinkInfo × SiteMapS :=
  let base_domain := stripWWW (netlocOf sm.main_url)
  let link_domain := stripWWW (netlocOf li.url)
  if link_domain == base_domain then
    let url_lower := strLower li.url
    let isC := disc_contact_keywords.any fun kw => strContainsSub kw url_lower
    let isA := strContainsSub "about" url_lower
    let li := { li with link_type := "internal", is_contact := li.is_contact || isC,
                        is_about := li.is_about || isA }
    (li, { sm with internal_links := sm.internal_links ++ [li],
                   contact_links :=
                     if isC then sm.contact_links ++ [li] else sm.contact_links })
  else if disc_social_domains.any (fun sd => strContainsSub sd link_domain) then
    let li := { li with link_type := "social" }
    (li, { sm with social_links := sm.social_links ++ [li] })
  else if strContainsSub "maps.google.com" li.url
          || strContainsSub "google.com/maps" li.url then
    let li := { li with link_type := "maps", is_google_maps := true }
    (li, { sm with maps_links := sm.maps_links ++ [li.url] })
  else
    let li := { li with link_type := "external" }
    (li, { sm with external_links := sm.external_links ++ [li] })

/-- The href-normalization of
`ComprehensiveLinkDiscoverer._extract_all_links_from_page` for one anchor:
skip empty targets and those starting with `'#'` or `'javascript:'`,
resolve against the base, and skip excluded file extensions. Returns the
stored URL, or `none` when the anchor is skipped. -/
def disc_extract_normalize (base_url href : String) : Option String :=
  if href == "" || strStartsWith "#" href || strStartsWith "javascript:" href then none
  else
    let full_url := urljoin base_url href
    if excluded_extensions.any (fun ext => strEndsWith ext (strLower full_url)) then none
    else some full_url

/-- The `LinkInfo` built by `_extract_all_links_from_page` for one surviving
anchor (navigation/footer flags and context come from the HTML-structure
collaborator and are taken as inputs). -/
def disc_make_link (base_url href anchor_text : String) (depth : Nat)
    (is_nav is_foot : Bool) (ctx : String) : Option LinkInfo :=
  (disc_extract_normalize base_url href).map fun u =>
    { url := u, anchor_text := anchor_text, source_page := base_url,
      depth := depth + 1, context := ctx,
      is_navigation := is_nav, is_footer := is_foot }

/-! ### `EnhancedGoogleMapsDetector._select_primary_maps_link` -/

/-- `priority_patterns` of `_select_primary_maps_link`, in source order. -/
def priority_patterns : List String :=
  [ "maps.google.com/place/", "google.com/maps/place/"
  , "maps.google.com/dir/", "google.com/maps/dir/"
  , "maps.google.com", "google.com/maps" ]

/-- The nested loop of `_select_primary_maps_link`: for each pattern in
order, the first link (in list order) containing it, lowercased. -/
def select_by_patterns (pats links : List String) : Option String :=
  match pats with
  | [] => none
  | p :: ps =>
    match links.find? (fun l => strContainsSub p (strLower l)) with
    | some l => some l
    | none => select_by_patterns ps links

/-- `_select_primary_maps_link(maps_links)`: `""` on the empty list, else
the first link matching the highest-priority pattern, else `maps_links[0]`. -/
def select_primary_maps_link (maps_links : List String) : String :=
  match maps_links with
  | [] => ""
  | l0 :: _ => (select_by_patterns priority_patterns maps_links).getD l0

/-! ### `safe_extract_links` -/

/-- `safe_extract_links(base_url, html)`: the result of the underlying
`extract_clickable_links` call is passed in as an `Except` value, `.error`
standing for a raised exception that the `try/except` converts to `[]`. -/
def safe_extract_links (html : String)
    (extract : Except String (List LinkInfo)) : List LinkInfo :=
  if html == "" || detect_page_errors html then []
  else
    match extract with
    | .ok links => links
    | .error _ => []

/-! ### The crawl loop of `ComprehensiveLinkDiscoverer.discover_all_links`

The fetch-and-extract side (`self.http_client.get_with_retry` followed by
`self._extract_all_links_from_page`) is the external port of the loop and is
passed in as `env : String → Option (List LinkInfo)` — `none` when the fetch
produced no html, `some links` for the extracted page links otherwise. The
`while` loop is modelled by a guard, a step function for one loop body, a
fuel-indexed iterate, and an inductive reachability relation. -/

/-- The configuration values the crawl loop reads from `config`
(defaults as in `EnhancedAnalyzerConfig`). -/
structure CrawlConfig where
  MAX_PAGES_PER_SITE : Nat := 1000
  MAX_CRAWL_DEPTH : Nat := 45
deriving DecidableEq, Repr

/-- The mutable state of `discover_all_links`: `self.discovered_urls`
(a set, kept here in insertion order), `self.url_queue` (a FIFO deque:
`popleft` at the head, `append` at the tail), the sitemap under
construction, and a ghost history `enqueuedHist` recording every URL ever
appended to the queue (observationally inert; it exists so that
no-duplicate-enqueue is a statement about the whole run). -/
structure CrawlState where
  discovered_urls : List String
  url_queue : List (String × Nat)
  sitemap : SiteMapS
  enqueuedHist : List String
deriving DecidableEq, Repr

/-- The per-link body of the `for link_info in page_links` loop: classify
and store, then enqueue internal, undiscovered links when
`depth < MAX_CRAWL_DEPTH`, marking them discovered. -/
def process_link (cfg : CrawlConfig) (depth : Nat)
    (s : CrawlState) (li : LinkInfo) : CrawlState :=
  let li2 := (classify_and_store_link li s.sitemap).1
  let sm2 := (classify_and_store_link li s.sitemap).2
  if li2.link_type == "internal" && !(s.discovered_urls.contains li2.url)
      && decide (depth < cfg.MAX_CRAWL_DEPTH) then
    { s with sitemap := sm2,
             url_queue := s.url_queue ++ [(li2.url, depth + 1)],
             discovered_urls := s.discovered_urls ++ [li2.url],
             enqueuedHist := s.enqueuedHist ++ [li2.url] }
  else
    { s with sitemap := sm2 }

/-- The `while` guard of `discover_all_links`:
`self.url_queue and len(self.discovered_urls) < config.MAX_PAGES_PER_SITE`. -/
def crawl_guard (cfg : CrawlConfig) (s : CrawlState) : Bool :=
  !s.url_queue.isEmpty
    && decide (s.discovered_urls.length < cfg.MAX_PAGES_PER_SITE)

/-- One body of the `while` loop: pop the head task, skip over-depth tasks
and failed fetches, otherwise classify/store/enqueue every extracted link
and update the sitemap statistics. -/
def crawl_step (cfg : CrawlConfig) (env : String → Option (List LinkInfo))
    (s : CrawlState) : CrawlState :=
  match s.url_queue with
  | [] => s
  | (current_url, depth) :: rest =>
    let s1 : CrawlState := { s with url_queue := rest }
    if cfg.MAX_CRAWL_DEPTH < depth then s1
    else
      match env current_url with
      | none => s1
      | some page_links =>
        let s2 := page_links.foldl (process_link cfg depth) s1
        { s2 with sitemap := { s2.sitemap with
            total_links := s2.sitemap.total_links + page_links.length,
            crawl_depth_reached := max s2.sitemap.crawl_depth_reached depth } }

/-- The `while` loop, fuel-indexed. -/
def crawl_loop (cfg : CrawlConfig) (env : String → Option (List LinkInfo)) :
    Nat → CrawlState → CrawlState
  | 0, s => s
  | fuel + 1, s =>
    if crawl_guard cfg s then crawl_loop cfg env fuel (crawl_step cfg env s)
    else s

/-- The initialization of `discover_all_links`: the main URL is enqueued at
depth 0 and marked discovered. -/
def crawl_init (main_url : String) : CrawlState :=
  { discovered_urls := [main_url],
    url_queue := [(main_url, 0)],
    sitemap := { domain := stripWWW (netlocOf main_url), main_url := main_url },
    enqueuedHist := [main_url] }

/-- `ComprehensiveLinkDiscoverer._assess_website_complexity(sitemap)`. -/
def assess_website_complexity (total_pages : Nat) : String :=
  if 50 ≤ total_pages then "Complex"
  else if 20 ≤ total_pages then "Moderate"
  else if 6 ≤ total_pages then "Simple"
  else "Basic"

/-- `discover_all_links(main_url)`: run the loop, then finalize
`total_pages` and the complexity tier. -/
def discover_all_links (cfg : CrawlConfig) (env : String → Option (List LinkInfo))
    (main_url : String) (fuel : Nat) : SiteMapS :=
  let s := crawl_loop cfg env fuel (crawl_init main_url)
  { s.sitemap with
      total_pages := s.discovered_urls.length,
      website_structure_complexity :=
        assess_website_complexity s.discovered_urls.length }

/-- States of the crawl loop reachable from the initial state by guarded
steps (i.e. every intermediate state of the `while` loop). -/
inductive CrawlReach (cfg : CrawlConfig) (env : String → Option (List LinkInfo))
    (main_url : String) : CrawlState → Prop where
  | init : CrawlReach cfg env main_url (crawl_init main_url)
  | step : ∀ {s : CrawlState}, CrawlReach cfg env main_url s →
      crawl_guard cfg s = true →
      CrawlReach cfg env main_url (crawl_step cfg env s)

/-! ### Spec-side classifier (for the refinement comparison of the
link-classification claim) -/

/-- Modelled from the spec (§4.4), for comparison with the code-side
classifiers: same-domain → internal; different domain in the fixed
social-domain set → social; different domain matching one of the four
map-URL patterns → maps; different domain whose URL or anchor text contains
a contact keyword → contact; otherwise external. -/
def spec_classify (base_domain full_url anchor_text : String) : String :=
  let link_domain := stripWWW (netlocOf full_url)
  if base_domain == link_domain then "internal"
  else if SOCIAL_DOMAINS.contains link_domain then "social"
  else if is_maps_link full_url then "maps"
  else if contact_keywords.any (fun kw =>
      strContainsSub kw (strLower full_url)
        || strContainsSub kw (strLower anchor_text)) then "contact"
  else "external"

/-! ### Concrete fixtures used by counterexamples and witnesses -/

/-- A tiny site: the main page carries three same-domain links; every other
fetch fails. -/
def envSmall : String → Option (List LinkInfo) := fun u =>
  if u == "http://example.com/" then
    some [ { url := "http://example.com/p1" }
         , { url := "http://example.com/p2" }
         , { url := "http://example.com/p3" } ]
  else none

/-- A crawl configuration with a page budget of 2. -/
def cfgSmall : CrawlConfig := { MAX_PAGES_PER_SITE := 2, MAX_CRAWL_DEPTH := 3 }

/-- A body longer than `MIN_HTML_LENGTH`. -/
def longHtml : String := String.mk (List.replicate 1001 'a')

/-! ## Theorems -/

/-- C9: `EnhancedHTTPClient.get_with_retry` yields non-`None` content only
when the response status is exactly 200 and the body length strictly
exceeds the configured minimum; in every other outcome the content
component is `None`. -/
theorem C9_content_implies_ok (minLen : Nat) (attempts : List FetchOutcome)
    (html : String) (st : Option Nat)
    (h : get_with_retry minLen attempts = (some html, st)) :
    st = some 200 ∧ minLen < html.length := by
  induction attempts with
  | nil => simp [get_with_retry] at h
  | cons a rest ih =>
    cases a with
    | exc => exact ih (by simpa [get_with_retry] using h)
    | resp status body =>
      simp only [get_with_retry] at h
      by_cases h1 : (status == 200 && decide (minLen < body.length)) = true
      · rw [if_pos h1] at h
        obtain ⟨hs, hl⟩ : (status == 200) = true ∧ decide (minLen < body.length) = true := by
          simpa using h1
        obtain ⟨hb, hst⟩ := Prod.mk.injEq .. ▸ h
        cases hb
        refine ⟨?_, of_decide_eq_true hl⟩
        rw [← hst, beq_iff_eq.mp hs]
      · rw [if_neg h1] at h
        by_cases h2 : ([403, 404, 500, 503].contains status) = true
        · rw [if_pos h2] at h
          exact absurd (congrArg Prod.fst h) (by simp)
        · rw [if_neg h2] at h
          exact ih h

/-- C9 witness: a concrete successful attempt. -/
theorem C9_content_implies_ok_witness :
    (some 200 : Option Nat) = some 200 ∧ 5 < ("123456" : String).length :=
  C9_content_implies_ok 5 [FetchOutcome.resp 200 "123456"] "123456" (some 200)
    (by decide)

/-- C10: `safe_extract_links` is total at its interface: the empty list on
empty html, on html matching an error signature, and on an exception from
the underlying `extract_clickable_links`; the extracted list otherwise. -/
theorem C10_safe_extract_total (html : String)
    (extract : Except String (List LinkInfo)) :
    (html = "" → safe_extract_links html extract = [])
    ∧ (detect_page_errors html = true → safe_extract_links html extract = [])
    ∧ (∀ e, extract = Except.error e → safe_extract_links html extract = [])
    ∧ (∀ links, extract = Except.ok links →
        html = "" ∨ detect_page_errors html = true
          ∨ safe_extract_links html extract = links) := by
  refine ⟨fun h => ?_, fun h => ?_, fun e he => ?_, fun links hl => ?_⟩
  · simp [safe_extract_links, h]
  · simp [safe_extract_links, h]
  · subst he
    unfold safe_extract_links
    split <;> rfl
  · subst hl
    by_cases h0 : html = ""
    · exact Or.inl h0
    · by_cases h1 : detect_page_errors html = true
      · exact Or.inr (Or.inl h1)
      · refine Or.inr (Or.inr ?_)
        simp [safe_extract_links, h0, h1]

/-- C10 witness: error-signature html yields the empty list even when the
underlying extraction would have produced links. -/
theorem C10_safe_extract_total_witness :
    safe_extract_links "a captcha page"
      (Except.ok [{ url := "http://example.com/x" }]) = [] :=
  (C10_safe_extract_total "a captcha page"
    (Except.ok [{ url := "http://example.com/x" }])).2.1 (by decide)

/-- C2: the code bug at the failing input. `"Just a moment..."` is in
`ERROR_PATTERNS` and occurs verbatim in the body, and
`handle_fetch_error` itself would classify this body as a Cloudflare
challenge; yet `detect_page_errors` misses it — it searches the
case-sensitive pattern inside the *lowercased* html — so
`fetch_with_error_handling` returns the blocked body as a success on the
first attempt instead of classifying it `ContentBlocked`, retrying, and
skipping. Only all-lowercase signatures such as `"captcha"` can fire. -/
theorem C2_blocked_signature_code_bug :
    ERROR_PATTERNS.contains "Just a moment..." = true
    ∧ strContainsSub "Just a moment..." "<html><body>Just a moment...</body></html>" = true
    ∧ detect_page_errors "<html><body>Just a moment...</body></html>" = false
    ∧ fetch_with_error_handling
        [FetchOutcome.resp 200 "<html><body>Just a moment...</body></html>",
         FetchOutcome.resp 200 "<html><body>Just a moment...</body></html>",
         FetchOutcome.resp 200 "<html><body>Just a moment...</body></html>"]
        = (some "<html><body>Just a moment...</body></html>", some 200)
    ∧ handle_fetch_error_type "<html><body>Just a moment...</body></html>"
        = "Cloudflare Challenge"
    ∧ detect_page_errors "please complete the captcha to continue" = true := by
  decide

/-- C1 counterexample: a first attempt with status 500 (a status the claim
calls retryable, and which `should_retry_fetch` indeed classifies as
retryable) is treated by `EnhancedHTTPClient.get_with_retry` as an
immediately-permanent failure: it returns `(None, 500)` without consuming
the remaining attempts, which would have succeeded. -/
theorem C1_counterexample :
    should_retry_fetch 500 "" = true
    ∧ get_with_retry MIN_HTML_LENGTH
        [FetchOutcome.resp 500 longHtml,
         FetchOutcome.resp 200 longHtml,
         FetchOutcome.resp 200 longHtml]
        = (none, some 500)
    ∧ get_with_retry MIN_HTML_LENGTH
        [FetchOutcome.resp 200 longHtml] = (some longHtml, some 200) := by
  decide

/-- C1 amended: `should_retry_fetch` classifies {429, 500, 502, 503, 504}
as retryable, but status alone never drives a retry:
`fetch_with_error_handling` returns any response whose body carries no
error signature immediately, whatever its status; and
`EnhancedHTTPClient.get_with_retry` returns `(None, status)` at once —
permanently — on 403/404/500/503, while it silently re-attempts
429/502/504. -/
theorem C1_retry_policy_amended (st : Nat) (html : String)
    (rest : List FetchOutcome) (minLen : Nat) :
    (st ∈ [429, 500, 502, 503, 504] → should_retry_fetch st html = true)
    ∧ (detect_page_errors html = false →
        fetch_with_error_handling (FetchOutcome.resp st html :: rest)
          = (some html, some st))
    ∧ (st ∈ [403, 404, 500, 503] →
        get_with_retry minLen (FetchOutcome.resp st html :: rest)
          = (none, some st))
    ∧ (st ∈ [429, 502, 504] →
        get_with_retry minLen (FetchOutcome.resp st html :: rest)
          = get_with_retry minLen rest) := by
  refine ⟨fun h => ?_, fun h => ?_, fun h => ?_, fun h => ?_⟩
  · fin_cases h <;> simp [should_retry_fetch]
  · simp [fetch_with_error_handling, h]
  · fin_cases h <;> simp [get_with_retry]
  · fin_cases h <;> simp [get_with_retry]

/-- C1 amended witness: concrete instances of each conjunct. -/
theorem C1_retry_policy_amended_witness :
    should_retry_fetch 503 "" = true
    ∧ fetch_with_error_handling [FetchOutcome.resp 500 "server hiccup"]
        = (some "server hiccup", some 500)
    ∧ get_with_retry 5 [FetchOutcome.resp 503 "x"] = (none, some 503)
    ∧ get_with_retry 5 [FetchOutcome.resp 429 "x"] = (none, none) := by
  refine ⟨(C1_retry_policy_amended 503 "" [] 5).1 (by decide),
          (C1_retry_policy_amended 500 "server hiccup" [] 5).2.1 (by decide),
          (C1_retry_policy_amended 503 "x" [] 5).2.2.1 (by decide),
          ?_⟩
  have h := (C1_retry_policy_amended 429 "x" [] 5).2.2.2 (by decide)
  exact h.trans rfl

/-- C4 counterexample: a cross-domain link whose URL and anchor text both
contain a contact keyword. The claim says the classifier yields `contact`;
the crawl's classifier `_classify_and_store_link` yields `external`
(it has no contact branch for cross-domain links), while
`extract_clickable_links` does yield `contact` on the same input. -/
theorem C4_counterexample :
    (classify_and_store_link
        { url := "http://partners.org/contact-us", anchor_text := "Contact Us" }
        { domain := "example.com", main_url := "http://example.com/" }).1.link_type
      = "external"
    ∧ ecl_classify "example.com" "http://partners.org/contact-us" "Contact Us"
      = "contact" := by
  decide

/-- C4 amended: `extract_clickable_links` classifies exactly in the claimed
order (it coincides with the spec-side decision procedure);
`_classify_and_store_link`, however, never produces `contact`: it labels a
link `internal` exactly when the www-stripped domains agree, and otherwise
only `social`, `maps` or `external` (contact keywords flag internal links
only). -/
theorem C4_classification_amended :
    (∀ base_domain full_url anchor_text : String,
      ecl_classify base_domain full_url anchor_text
        = spec_classify base_domain full_url anchor_text)
    ∧ ∀ (li : LinkInfo) (sm : SiteMapS),
        ((classify_and_store_link li sm).1.link_type = "internal"
          ↔ stripWWW (netlocOf li.url) = stripWWW (netlocOf sm.main_url))
        ∧ (classify_and_store_link li sm).1.link_type
            ∈ ["internal", "social", "maps", "external"] := by
  constructor
  · intro b u a
    rfl
  · intro li sm
    by_cases h1 : (stripWWW (netlocOf li.url) == stripWWW (netlocOf sm.main_url)) = true
    · have heq := beq_iff_eq.mp h1
      constructor
      · simp [classify_and_store_link, h1, heq]
      · simp [classify_and_store_link, h1]
    · have hne : ¬ stripWWW (netlocOf li.url) = stripWWW (netlocOf sm.main_url) :=
        fun he => h1 (beq_iff_eq.mpr he)
      by_cases h2 : (disc_social_domains.any fun sd =>
          strContainsSub sd (stripWWW (netlocOf li.url))) = true
      · refine ⟨?_, by simp [classify_and_store_link, h1, h2]⟩
        simp only [classify_and_store_link, h1, h2]
        simp only [Bool.false_eq_true, if_false, if_true]
        exact ⟨fun hx => absurd hx (by decide), fun he => absurd he hne⟩
      · by_cases h3 : (strContainsSub "maps.google.com" li.url
            || strContainsSub "google.com/maps" li.url) = true
        · refine ⟨?_, by simp [classify_and_store_link, h1, h2, h3]⟩
          simp only [classify_and_store_link, h1, h2, h3]
          simp only [Bool.false_eq_true, if_false, if_true]
          exact ⟨fun hx => absurd hx (by decide), fun he => absurd he hne⟩
        · refine ⟨?_, by simp [classify_and_store_link, h1, h2, h3]⟩
          simp only [classify_and_store_link, h1, h2, h3]
          simp only [Bool.false_eq_true, if_false, if_true]
          exact ⟨fun hx => absurd hx (by decide), fun he => absurd he hne⟩

/-- C4 amended witness: concrete instances of both halves. -/
theorem C4_classification_amended_witness :
    ecl_classify "example.com" "https://facebook.com/acme" "Acme"
        = spec_classify "example.com" "https://facebook.com/acme" "Acme"
    ∧ ((classify_and_store_link { url := "http://www.example.com/about-us" }
          { domain := "example.com", main_url := "http://example.com/" }).1.link_type
            = "internal"
        ↔ stripWWW (netlocOf "http://www.example.com/about-us")
            = stripWWW (netlocOf "http://example.com/"))
    ∧ (classify_and_store_link { url := "http://www.example.com/about-us" }
          { domain := "example.com", main_url := "http://example.com/" }).1.link_type
        ∈ ["internal", "social", "maps", "external"] :=
  ⟨C4_classification_amended.1 "example.com" "https://facebook.com/acme" "Acme",
   (C4_classification_amended.2 { url := "http://www.example.com/about-us" }
      { domain := "example.com", main_url := "http://example.com/" }).1,
   (C4_classification_amended.2 { url := "http://www.example.com/about-us" }
      { domain := "example.com", main_url := "http://example.com/" }).2⟩

/-- For any ordered pattern list, the nested selection loop returns the
first link matching the first pattern that matches any link, and `none`
exactly when no pattern matches any link. -/
theorem select_by_patterns_spec (pats links : List String) :
    (∀ p, pats.find? (fun q => links.any fun l => strContainsSub q (strLower l))
        = some p →
      select_by_patterns pats links
        = links.find? (fun l => strContainsSub p (strLower l)))
    ∧ (pats.find? (fun q => links.any fun l => strContainsSub q (strLower l))
        = none →
      select_by_patterns pats links = none) := by
  induction pats with
  | nil => exact ⟨fun p hp => by simp at hp, fun _ => rfl⟩
  | cons p0 ps ih =>
    constructor
    · intro p hp
      by_cases h0 : (links.any fun l => strContainsSub p0 (strLower l)) = true
      · have hcons : List.find?
            (fun q => links.any fun l => strContainsSub q (strLower l)) (p0 :: ps)
            = some p0 := List.find?_cons_of_pos ps h0
        rw [hcons] at hp
        cases hp
        obtain ⟨l0, hl0mem, hl0⟩ := List.any_eq_true.mp h0
        have hsome : (List.find? (fun l => strContainsSub p0 (strLower l)) links).isSome :=
          List.find?_isSome.mpr ⟨l0, hl0mem, hl0⟩
        obtain ⟨lf, hlf⟩ := Option.isSome_iff_exists.mp hsome
        unfold select_by_patterns
        rw [hlf]
      · have hcons : List.find?
            (fun q => links.any fun l => strContainsSub q (strLower l)) (p0 :: ps)
            = List.find?
                (fun q => links.any fun l => strContainsSub q (strLower l)) ps :=
          List.find?_cons_of_neg ps (by simpa using h0)
        rw [hcons] at hp
        have hfind : links.find? (fun l => strContainsSub p0 (strLower l)) = none := by
          rw [List.find?_eq_none]
          intro x hx
          exact fun hc => h0 (List.any_eq_true.mpr ⟨x, hx, hc⟩)
        unfold select_by_patterns
        rw [hfind]
        exact ih.1 p hp
    · intro hp
      by_cases h0 : (links.any fun l => strContainsSub p0 (strLower l)) = true
      · have hcons : List.find?
            (fun q => links.any fun l => strContainsSub q (strLower l)) (p0 :: ps)
            = some p0 := List.find?_cons_of_pos ps h0
        rw [hcons] at hp
        cases hp
      · have hcons : List.find?
            (fun q => links.any fun l => strContainsSub q (strLower l)) (p0 :: ps)
            = List.find?
                (fun q => links.any fun l => strContainsSub q (strLower l)) ps :=
          List.find?_cons_of_neg ps (by simpa using h0)
        rw [hcons] at hp
        have hfind : links.find? (fun l => strContainsSub p0 (strLower l)) = none := by
          rw [List.find?_eq_none]
          intro x hx
          exact fun hc => h0 (List.any_eq_true.mpr ⟨x, hx, hc⟩)
        unfold select_by_patterns
        rw [hfind]
        exact ih.2 hp

/-- C5: on a non-empty aggregate list, `_select_primary_maps_link` returns
the first member matching the highest-priority pattern that matches any
member (the priority list places specific-place forms before directions
forms before generic forms); only when no pattern matches any member does
it return the first element in insertion order. -/
theorem C5_primary_selection (links : List String) (hne : links ≠ []) :
    (∀ p, priority_patterns.find?
          (fun q => links.any fun l => strContainsSub q (strLower l)) = some p →
      ∃ l, links.find? (fun l => strContainsSub p (strLower l)) = some l
        ∧ select_primary_maps_link links = l)
    ∧ (priority_patterns.find?
          (fun q => links.any fun l => strContainsSub q (strLower l)) = none →
      select_primary_maps_link links = links.headD "") := by
  obtain ⟨l0, ls, rfl⟩ := List.exists_cons_of_ne_nil hne
  constructor
  · intro p hp
    have hmatch := List.find?_some hp
    obtain ⟨x, hxmem, hx⟩ := List.any_eq_true.mp hmatch
    have hsome : (List.find? (fun l => strContainsSub p (strLower l)) (l0 :: ls)).isSome :=
      List.find?_isSome.mpr ⟨x, hxmem, hx⟩
    obtain ⟨lf, hlf⟩ := Option.isSome_iff_exists.mp hsome
    refine ⟨lf, hlf, ?_⟩
    have hsel := (select_by_patterns_spec priority_patterns (l0 :: ls)).1 p hp
    unfold select_primary_maps_link
    rw [hsel, hlf]
    rfl
  · intro hp
    have hsel := (select_by_patterns_spec priority_patterns (l0 :: ls)).2 hp
    unfold select_primary_maps_link
    rw [hsel]
    rfl

/-- A successful `beforeColon` decomposes the list at its first colon. -/
theorem beforeColon_some : ∀ (l pre : List Char), beforeColon l = some pre →
    ':' ∉ pre ∧ ∃ rest, l = pre ++ ':' :: rest := by
  intro l
  induction l with
  | nil => intro pre h; simp [beforeColon] at h
  | cons c cs ih =>
    intro pre h
    by_cases hc : c = ':'
    · subst hc
      simp [beforeColon] at h
      subst h
      exact ⟨by simp, cs, rfl⟩
    · simp only [beforeColon, if_neg hc] at h
      obtain ⟨pre', hpre', rfl⟩ := Option.map_eq_some'.mp h
      obtain ⟨hn, rest, hrest⟩ := ih pre' hpre'
      refine ⟨?_, rest, ?_⟩
      · intro hmem
        rcases List.mem_cons.mp hmem with h' | h'
        · exact hc h'.symm
        · exact hn h'
      · rw [hrest]
        rfl

/-- `beforeColon` recovers a colon-free prefix. -/
theorem beforeColon_append : ∀ (pre rest : List Char), ':' ∉ pre →
    beforeColon (pre ++ ':' :: rest) = some pre := by
  intro pre
  induction pre with
  | nil => intro rest _; simp [beforeColon]
  | cons c cs ih =>
    intro rest h
    have hc : ¬ c = ':' := fun he => h (by simp [he])
    simp only [List.cons_append, beforeColon, if_neg hc, List.append_eq]
    rw [ih rest fun hm => h (List.mem_cons_of_mem c hm)]
    rfl

/-- Scheme characters include neither `':'` nor `'#'`. -/
theorem isSchemeChars_mem (pre : List Char) (h : isSchemeChars pre = true) :
    ':' ∉ pre ∧ '#' ∉ pre := by
  cases pre with
  | nil => simp [isSchemeChars] at h
  | cons c cs =>
    simp only [isSchemeChars, Bool.and_eq_true, List.all_eq_true] at h
    obtain ⟨h1, h2⟩ := h
    constructor
    · intro hm
      rcases List.mem_cons.mp hm with h' | h'
      · rw [← h'] at h1
        exact absurd h1 (by decide)
      · exact absurd (h2 _ h') (by decide)
    · intro hm
      rcases List.mem_cons.mp hm with h' | h'
      · rw [← h'] at h1
        exact absurd h1 (by decide)
      · exact absurd (h2 _ h') (by decide)

/-- `takeWhile` passes over a wholly-satisfying prefix. -/
theorem takeWhile_append_all (p : Char → Bool) : ∀ (l1 l2 : List Char),
    (∀ c ∈ l1, p c = true) → (l1 ++ l2).takeWhile p = l1 ++ l2.takeWhile p := by
  intro l1
  induction l1 with
  | nil => intro l2 _; rfl
  | cons c cs ih =>
    intro l2 h
    simp only [List.cons_append, List.takeWhile_cons, h c (List.mem_cons_self c cs),
      if_true]
    rw [ih l2 fun x hx => h x (List.mem_cons_of_mem c hx)]

/-- Cutting a URL at its first `'#'` keeps its scheme (when it has one) and
leaves no `'#'`. -/
theorem schemeOf_beforeHash (s : String) (h : schemeOf s ≠ "") :
    schemeOf (beforeHash s) = schemeOf s ∧ '#' ∉ (beforeHash s).toList := by
  have hhash : '#' ∉ (beforeHash s).toList := by
    intro hm
    have hm' : '#' ∈ s.toList.takeWhile (fun c => !(c == '#')) := hm
    exact absurd (List.mem_takeWhile_imp hm') (by decide)
  refine ⟨?_, hhash⟩
  unfold schemeOf at h ⊢
  cases hbc : beforeColon s.toList with
  | none => rw [hbc] at h; simp at h
  | some pre =>
    rw [hbc] at h
    by_cases hsc : isSchemeChars pre = true
    · obtain ⟨hcolon, hhashp⟩ := isSchemeChars_mem pre hsc
      obtain ⟨-, rest, hrest⟩ := beforeColon_some _ _ hbc
      have hbh : (beforeHash s).toList
          = pre ++ ':' :: (rest.takeWhile fun c => !(c == '#')) := by
        show (s.toList.takeWhile fun c => !(c == '#')) = _
        rw [hrest, takeWhile_append_all _ pre _ ?hall]
        · simp only [List.takeWhile_cons]
          simp
        · intro c hc
          have : ¬ c = '#' := fun he => hhashp (he ▸ hc)
          simp [this]
      rw [hbh, beforeColon_append pre _ hcolon]
    · have h' : (if isSchemeChars pre = true
          then String.mk (pre.map Char.toLower) else "") ≠ "" := h
      rw [if_neg hsc] at h'
      exact absurd rfl h'

/-- C6 counterexample: `_extract_all_links_from_page` keeps a `mailto:`
target (non-http(s) scheme) and keeps a fragment that does not start the
href — both violating the claimed invariant for links it produces. -/
theorem C6_counterexample :
    disc_extract_normalize "http://example.com/page" "mailto:info@example.com"
      = some "mailto:info@example.com"
    ∧ schemeOf "mailto:info@example.com" = "mailto"
    ∧ disc_extract_normalize "http://example.com/page" "https://example.com/a#sec"
      = some "https://example.com/a#sec"
    ∧ '#' ∈ ("https://example.com/a#sec" : String).toList := by
  decide

/-- C6 amended: the invariant does hold for every link produced by
`extract_clickable_links`: a stored URL has scheme http or https and
carries no fragment. (`_extract_all_links_from_page` guarantees neither,
per the counterexample.) -/
theorem C6_normalization_amended (base_url href u : String)
    (h : ecl_normalize base_url href = some u) :
    (schemeOf u = "http" ∨ schemeOf u = "https") ∧ '#' ∉ u.toList := by
  unfold ecl_normalize at h
  by_cases h1 : (strTrim href == "" || strStartsWith "javascript:" (strTrim href)
      || strStartsWith "mailto:" (strTrim href)
      || strStartsWith "tel:" (strTrim href)) = true
  · simp only [h1, if_true] at h
    cases h
  · simp only [h1, Bool.false_eq_true, if_false] at h
    by_cases h2 : (schemeOf (urljoin base_url (strTrim href)) == "http"
        || schemeOf (urljoin base_url (strTrim href)) == "https") = true
    · simp only [h2, Bool.not_true, Bool.false_eq_true, if_false,
        Option.some.injEq] at h
      subst h
      have hor : schemeOf (urljoin base_url (strTrim href)) = "http"
          ∨ schemeOf (urljoin base_url (strTrim href)) = "https" := by
        simpa using h2
      have hne : schemeOf (urljoin base_url (strTrim href)) ≠ "" := by
        rcases hor with h' | h' <;> simp [h']
      obtain ⟨hsch, hmem⟩ := schemeOf_beforeHash (urljoin base_url (strTrim href)) hne
      exact ⟨hsch ▸ hor, hmem⟩
    · simp only [h2, Bool.not_false, if_true] at h
      cases h

/-- C6 amended witness: a relative href with a fragment resolves to a
fragment-free absolute http URL. -/
theorem C6_normalization_amended_witness :
    (schemeOf "http://example.com/dir/sub/page2" = "http"
      ∨ schemeOf "http://example.com/dir/sub/page2" = "https")
    ∧ '#' ∉ ("http://example.com/dir/sub/page2" : String).toList :=
  C6_normalization_amended "http://example.com/dir/page" "sub/page2#frag"
    "http://example.com/dir/sub/page2" (by decide)

/-- C5 witness: the scenario of the claim — a specific-place link is chosen
over a co-discovered generic maps link. -/
theorem C5_primary_selection_witness :
    ∃ l, (["https://www.google.com/maps", "https://maps.google.com/maps/place/Acme"].find?
        (fun l => strContainsSub "google.com/maps/place/" (strLower l))) = some l
      ∧ select_primary_maps_link
          ["https://www.google.com/maps", "https://maps.google.com/maps/place/Acme"] = l :=
  (C5_primary_selection
      ["https://www.google.com/maps", "https://maps.google.com/maps/place/Acme"]
      (by decide)).1 "google.com/maps/place/" (by decide)

/-- `process_link` either leaves queue, discovered set and enqueue history
unchanged, or appends one yet-undiscovered URL at depth `d + 1` to all
three. -/
theorem process_link_shape (cfg : CrawlConfig) (d : Nat) (s : CrawlState)
    (li : LinkInfo) :
    ((process_link cfg d s li).url_queue = s.url_queue
      ∧ (process_link cfg d s li).discovered_urls = s.discovered_urls
      ∧ (process_link cfg d s li).enqueuedHist = s.enqueuedHist)
    ∨ ∃ u, s.discovered_urls.contains u = false
      ∧ (process_link cfg d s li).url_queue = s.url_queue ++ [(u, d + 1)]
      ∧ (process_link cfg d s li).discovered_urls = s.discovered_urls ++ [u]
      ∧ (process_link cfg d s li).enqueuedHist = s.enqueuedHist ++ [u] := by
  by_cases hcond : ((classify_and_store_link li s.sitemap).1.link_type = "internal"
      ∧ (classify_and_store_link li s.sitemap).1.url ∉ s.discovered_urls)
      ∧ d < cfg.MAX_CRAWL_DEPTH
  · obtain ⟨⟨h1, h2⟩, h3⟩ := hcond
    right
    refine ⟨(classify_and_store_link li s.sitemap).1.url, by simpa using h2,
      ?_, ?_, ?_⟩ <;> simp [process_link, h1, h2, h3]
  · left
    refine ⟨?_, ?_, ?_⟩ <;> simp [process_link, hcond]

/-- One `process_link` grows the discovered set by at most one URL. -/
theorem process_link_length (cfg : CrawlConfig) (d : Nat) (s : CrawlState)
    (li : LinkInfo) :
    (process_link cfg d s li).discovered_urls.length
      ≤ s.discovered_urls.length + 1 := by
  rcases process_link_shape cfg d s li with ⟨-, h, -⟩ | ⟨u, -, -, h, -⟩ <;>
    · rw [h]; simp

/-- Folding `process_link` over a page's links grows the discovered set by
at most the number of links. -/
theorem foldl_process_link_length (cfg : CrawlConfig) (d : Nat) :
    ∀ (ls : List LinkInfo) (s : CrawlState),
      (ls.foldl (process_link cfg d) s).discovered_urls.length
        ≤ s.discovered_urls.length + ls.length := by
  intro ls
  induction ls with
  | nil => intro s; simp
  | cons li ls ih =>
    intro s
    have h1 := process_link_length cfg d s li
    have h2 := ih (process_link cfg d s li)
    simp only [List.foldl_cons, List.length_cons]
    omega

/-- One loop body grows the discovered set by at most `L` when every page
carries at most `L` links. -/
theorem crawl_step_length (cfg : CrawlConfig)
    (env : String → Option (List LinkInfo)) (L : Nat)
    (hL : ∀ u ls, env u = some ls → ls.length ≤ L) (s : CrawlState) :
    (crawl_step cfg env s).discovered_urls.length
      ≤ s.discovered_urls.length + L := by
  rcases hq : s.url_queue with _ | ⟨⟨url, depth⟩, rest⟩
  · have hstep : crawl_step cfg env s = s := by
      unfold crawl_step
      rw [hq]
    rw [hstep]
    exact Nat.le_add_right _ _
  · by_cases hdep : cfg.MAX_CRAWL_DEPTH < depth
    · have hstep : (crawl_step cfg env s).discovered_urls = s.discovered_urls := by
        unfold crawl_step
        rw [hq]
        simp [hdep]
      rw [hstep]
      exact Nat.le_add_right _ _
    · cases henv : env url with
      | none =>
        have hstep : (crawl_step cfg env s).discovered_urls = s.discovered_urls := by
          unfold crawl_step
          rw [hq]
          simp [hdep, henv]
        rw [hstep]
        exact Nat.le_add_right _ _
      | some page_links =>
        have hstep : (crawl_step cfg env s).discovered_urls
            = (page_links.foldl (process_link cfg depth)
                { s with url_queue := rest }).discovered_urls := by
          unfold crawl_step
          rw [hq]
          simp [hdep, henv]
        rw [hstep]
        have h1 : (page_links.foldl (process_link cfg depth)
              { s with url_queue := rest }).discovered_urls.length
            ≤ s.discovered_urls.length + page_links.length :=
          foldl_process_link_length cfg depth page_links { s with url_queue := rest }
        have h2 := hL _ _ henv
        omega

/-- The budget invariant of the `while` loop: once below
`MAX_PAGES_PER_SITE + L`, the discovered count stays there (the guard
enforces `< MAX_PAGES_PER_SITE` before each processed page). -/
theorem crawl_loop_budget (cfg : CrawlConfig)
    (env : String → Option (List LinkInfo)) (L : Nat)
    (hL : ∀ u ls, env u = some ls → ls.length ≤ L) :
    ∀ (fuel : Nat) (s : CrawlState),
      s.discovered_urls.length ≤ cfg.MAX_PAGES_PER_SITE + L →
      (crawl_loop cfg env fuel s).discovered_urls.length
        ≤ cfg.MAX_PAGES_PER_SITE + L := by
  intro fuel
  induction fuel with
  | zero => intro s h; exact h
  | succ n ih =>
    intro s h
    rw [crawl_loop]
    by_cases hg : crawl_guard cfg s = true
    · rw [if_pos hg]
      apply ih
      have hlt : s.discovered_urls.length < cfg.MAX_PAGES_PER_SITE := by
        have h' := hg
        simp only [crawl_guard, Bool.and_eq_true, decide_eq_true_eq] at h'
        exact h'.2
      have hstep := crawl_step_length cfg env L hL s
      omega
    · rw [if_neg hg]
      exact h

/-- C3 counterexample: with a page budget of 2, a main page carrying three
internal links drives the discovered set — and hence `total_pages` — to 4:
the budget is only checked before a page is dequeued, not per enqueue. -/
theorem C3_counterexample :
    cfgSmall.MAX_PAGES_PER_SITE = 2
    ∧ (discover_all_links cfgSmall envSmall "http://example.com/" 10).total_pages
      = 4 := by
  decide

/-- C3 amended: the budget bounds when pages stop being processed, not each
enqueue; with at most `L` links per fetched page and a positive budget, the
discovered-URL count (and `total_pages`) is bounded by
`MAX_PAGES_PER_SITE + L`, and can genuinely exceed `MAX_PAGES_PER_SITE`
(by the links of the last processed page). -/
theorem C3_page_budget_amended (cfg : CrawlConfig)
    (env : String → Option (List LinkInfo)) (main_url : String)
    (fuel L : Nat) (hL : ∀ u ls, env u = some ls → ls.length ≤ L)
    (hM : 1 ≤ cfg.MAX_PAGES_PER_SITE) :
    (discover_all_links cfg env main_url fuel).total_pages
      ≤ cfg.MAX_PAGES_PER_SITE + L := by
  show (crawl_loop cfg env fuel (crawl_init main_url)).discovered_urls.length
    ≤ cfg.MAX_PAGES_PER_SITE + L
  apply crawl_loop_budget cfg env L hL fuel
  show (1 : Nat) ≤ cfg.MAX_PAGES_PER_SITE + L
  omega

/-- C3 amended witness: the default configuration with an empty site. -/
theorem C3_page_budget_amended_witness :
    (discover_all_links {} (fun _ => none) "http://example.com/" 3).total_pages
      ≤ ({} : CrawlConfig).MAX_PAGES_PER_SITE + 0 :=
  C3_page_budget_amended {} (fun _ => none) "http://example.com/" 3 0
    (fun _ _ h => by simp at h) (by decide)

/-- Invariants preserved by guarded steps hold in every reachable state. -/
theorem crawl_reach_invariant {cfg : CrawlConfig}
    {env : String → Option (List LinkInfo)} {main_url : String}
    (P : CrawlState → Prop) (hinit : P (crawl_init main_url))
    (hstep : ∀ s, P s → crawl_guard cfg s = true → P (crawl_step cfg env s)) :
    ∀ s, CrawlReach cfg env main_url s → P s := by
  intro s h
  induction h with
  | init => exact hinit
  | step hr hg ih => exact hstep _ ih hg

/-- The queue invariant: depths are non-decreasing along the FIFO order, and
any two queued depths differ by at most one. -/
def queue_inv (q : List (String × Nat)) : Prop :=
  q.Pairwise (fun a b => a.2 ≤ b.2) ∧ ∀ a ∈ q, ∀ b ∈ q, a.2 ≤ b.2 + 1

/-- `process_link` preserves sortedness and the depth window `[d, d+1]`. -/
theorem process_link_queue (cfg : CrawlConfig) (d : Nat) (s : CrawlState)
    (li : LinkInfo)
    (hp : s.url_queue.Pairwise (fun a b => a.2 ≤ b.2))
    (hb : ∀ a ∈ s.url_queue, d ≤ a.2 ∧ a.2 ≤ d + 1) :
    (process_link cfg d s li).url_queue.Pairwise (fun a b => a.2 ≤ b.2)
    ∧ ∀ a ∈ (process_link cfg d s li).url_queue, d ≤ a.2 ∧ a.2 ≤ d + 1 := by
  rcases process_link_shape cfg d s li with ⟨hq, -, -⟩ | ⟨u, -, hq, -, -⟩
  · rw [hq]
    exact ⟨hp, hb⟩
  · rw [hq]
    constructor
    · rw [List.pairwise_append]
      refine ⟨hp, by simp, ?_⟩
      intro a ha b hbmem
      simp only [List.mem_singleton] at hbmem
      subst hbmem
      exact (hb a ha).2
    · intro a ha
      rcases List.mem_append.mp ha with h' | h'
      · exact hb a h'
      · simp only [List.mem_singleton] at h'
        subst h'
        exact ⟨Nat.le_succ d, Nat.le_refl _⟩

/-- The per-page fold preserves sortedness and the depth window. -/
theorem foldl_process_link_queue (cfg : CrawlConfig) (d : Nat) :
    ∀ (ls : List LinkInfo) (s : CrawlState),
      s.url_queue.Pairwise (fun a b => a.2 ≤ b.2) →
      (∀ a ∈ s.url_queue, d ≤ a.2 ∧ a.2 ≤ d + 1) →
      (ls.foldl (process_link cfg d) s).url_queue.Pairwise (fun a b => a.2 ≤ b.2)
      ∧ ∀ a ∈ (ls.foldl (process_link cfg d) s).url_queue,
          d ≤ a.2 ∧ a.2 ≤ d + 1 := by
  intro ls
  induction ls with
  | nil => intro s hp hb; exact ⟨hp, hb⟩
  | cons li ls ih =>
    intro s hp hb
    obtain ⟨hp', hb'⟩ := process_link_queue cfg d s li hp hb
    simpa only [List.foldl_cons] using ih (process_link cfg d s li) hp' hb'

/-- One loop body preserves the queue invariant. -/
theorem crawl_step_queue (cfg : CrawlConfig)
    (env : String → Option (List LinkInfo)) (s : CrawlState)
    (h : queue_inv s.url_queue) : queue_inv (crawl_step cfg env s).url_queue := by
  obtain ⟨hp, hmut⟩ := h
  rcases hq : s.url_queue with _ | ⟨⟨url, depth⟩, rest⟩
  · have hstep : crawl_step cfg env s = s := by
      unfold crawl_step
      rw [hq]
    rw [hstep]
    exact ⟨hp, hmut⟩
  · rw [hq] at hp hmut
    obtain ⟨hhead, hrest⟩ := List.pairwise_cons.mp hp
    have hb : ∀ a ∈ rest, depth ≤ a.2 ∧ a.2 ≤ depth + 1 := fun a ha =>
      ⟨hhead a ha,
       hmut a (List.mem_cons_of_mem _ ha) (url, depth) (List.mem_cons_self _ _)⟩
    have hmut' : ∀ a ∈ rest, ∀ b ∈ rest, a.2 ≤ b.2 + 1 := fun a ha b hbm =>
      hmut a (List.mem_cons_of_mem _ ha) b (List.mem_cons_of_mem _ hbm)
    by_cases hdep : cfg.MAX_CRAWL_DEPTH < depth
    · have hstep : (crawl_step cfg env s).url_queue = rest := by
        unfold crawl_step
        rw [hq]
        simp [hdep]
      rw [hstep]
      exact ⟨hrest, hmut'⟩
    · cases henv : env url with
      | none =>
        have hstep : (crawl_step cfg env s).url_queue = rest := by
          unfold crawl_step
          rw [hq]
          simp [hdep, henv]
        rw [hstep]
        exact ⟨hrest, hmut'⟩
      | some page_links =>
        have hstep : (crawl_step cfg env s).url_queue
            = (page_links.foldl (process_link cfg depth)
                { s with url_queue := rest }).url_queue := by
          unfold crawl_step
          rw [hq]
          simp [hdep, henv]
        rw [hstep]
        obtain ⟨hp2, hb2⟩ := foldl_process_link_queue cfg depth page_links
          { s with url_queue := rest } hrest hb
        refine ⟨hp2, ?_⟩
        intro a ha b hbmem
        have h1 := (hb2 a ha).2
        have h2 := (hb2 b hbmem).1
        omega

/-- C7: in every reachable state of the crawl loop, depths are
non-decreasing along the FIFO queue (head dequeues first, enqueues append
at the tail), so a task of strictly smaller depth is always dequeued no
later than one of larger depth — breadth-first order. -/
theorem C7_bfs_order (cfg : CrawlConfig) (env : String → Option (List LinkInfo))
    (main_url : String) (s : CrawlState) (h : CrawlReach cfg env main_url s) :
    s.url_queue.Pairwise (fun a b => a.2 ≤ b.2) :=
  (crawl_reach_invariant (fun t => queue_inv t.url_queue)
    ⟨by simp [crawl_init], by
      intro a ha b hbmem
      simp only [crawl_init, List.mem_singleton] at ha hbmem
      simp [ha, hbmem]⟩
    (fun t ht _ => crawl_step_queue cfg env t ht) s h).1

/-- C7 witness: the invariant at the state after the first processed page
of the small fixture. -/
theorem C7_bfs_order_witness :
    (crawl_step cfgSmall envSmall
      (crawl_init "http://example.com/")).url_queue.Pairwise
        (fun a b => a.2 ≤ b.2) :=
  C7_bfs_order cfgSmall envSmall "http://example.com/" _
    (CrawlReach.step CrawlReach.init (by decide))

/-- The enqueue-history invariant: the history of appends is duplicate-free
and every appended URL is in the discovered set. -/
def hist_inv (s : CrawlState) : Prop :=
  s.enqueuedHist.Nodup ∧ ∀ u ∈ s.enqueuedHist, u ∈ s.discovered_urls

/-- `process_link` preserves the enqueue-history invariant: it appends only
URLs absent from the discovered set (hence from the history). -/
theorem process_link_hist (cfg : CrawlConfig) (d : Nat) (s : CrawlState)
    (li : LinkInfo) (h : hist_inv s) : hist_inv (process_link cfg d s li) := by
  rcases process_link_shape cfg d s li with ⟨-, hd, hh⟩ | ⟨u, hc, -, hd, hh⟩
  · constructor
    · rw [hh]
      exact h.1
    · rw [hh, hd]
      exact h.2
  · have hnmem : u ∉ s.discovered_urls := by simpa using hc
    have hnh : u ∉ s.enqueuedHist := fun hm => hnmem (h.2 u hm)
    constructor
    · rw [hh, List.nodup_append]
      refine ⟨h.1, List.nodup_singleton u, ?_⟩
      intro a ha hbm
      simp only [List.mem_singleton] at hbm
      subst hbm
      exact hnh ha
    · rw [hh, hd]
      intro v hv
      rcases List.mem_append.mp hv with h' | h'
      · exact List.mem_append_left _ (h.2 v h')
      · exact List.mem_append_right _ h'

/-- The per-page fold preserves the enqueue-history invariant. -/
theorem foldl_process_link_hist (cfg : CrawlConfig) (d : Nat) :
    ∀ (ls : List LinkInfo) (s : CrawlState), hist_inv s →
      hist_inv (ls.foldl (process_link cfg d) s) := by
  intro ls
  induction ls with
  | nil => intro s h; exact h
  | cons li ls ih =>
    intro s h
    simpa only [List.foldl_cons] using ih _ (process_link_hist cfg d s li h)

/-- One loop body preserves the enqueue-history invariant. -/
theorem crawl_step_hist (cfg : CrawlConfig)
    (env : String → Option (List LinkInfo)) (s : CrawlState)
    (h : hist_inv s) : hist_inv (crawl_step cfg env s) := by
  rcases hq : s.url_queue with _ | ⟨⟨url, depth⟩, rest⟩
  · have hstep : crawl_step cfg env s = s := by
      unfold crawl_step
      rw [hq]
    rw [hstep]
    exact h
  · by_cases hdep : cfg.MAX_CRAWL_DEPTH < depth
    · have h1 : (crawl_step cfg env s).enqueuedHist = s.enqueuedHist := by
        unfold crawl_step
        rw [hq]
        simp [hdep]
      have h2 : (crawl_step cfg env s).discovered_urls = s.discovered_urls := by
        unfold crawl_step
        rw [hq]
        simp [hdep]
      exact ⟨h1 ▸ h.1, by rw [h1, h2]; exact h.2⟩
    · cases henv : env url with
      | none =>
        have h1 : (crawl_step cfg env s).enqueuedHist = s.enqueuedHist := by
          unfold crawl_step
          rw [hq]
          simp [hdep, henv]
        have h2 : (crawl_step cfg env s).discovered_urls = s.discovered_urls := by
          unfold crawl_step
          rw [hq]
          simp [hdep, henv]
        exact ⟨h1 ▸ h.1, by rw [h1, h2]; exact h.2⟩
      | some page_links =>
        have hfold := foldl_process_link_hist cfg depth page_links
          { s with url_queue := rest } ⟨h.1, h.2⟩
        have h1 : (crawl_step cfg env s).enqueuedHist
            = (page_links.foldl (process_link cfg depth)
                { s with url_queue := rest }).enqueuedHist := by
          unfold crawl_step
          rw [hq]
          simp [hdep, henv]
        have h2 : (crawl_step cfg env s).discovered_urls
            = (page_links.foldl (process_link cfg depth)
                { s with url_queue := rest }).discovered_urls := by
          unfold crawl_step
          rw [hq]
          simp [hdep, henv]
        exact ⟨h1 ▸ hfold.1, by rw [h1, h2]; exact hfold.2⟩

/-- C8: over the whole crawl, each URL is appended to the frontier queue at
most once: in every reachable state the append history is duplicate-free,
and every URL ever appended (the main URL included) is in the discovered
set — so once discovered it can never pass the enqueue guard again. -/
theorem C8_no_duplicate_enqueue (cfg : CrawlConfig)
    (env : String → Option (List LinkInfo)) (main_url : String)
    (s : CrawlState) (h : CrawlReach cfg env main_url s) :
    s.enqueuedHist.Nodup ∧ ∀ u ∈ s.enqueuedHist, u ∈ s.discovered_urls :=
  crawl_reach_invariant hist_inv
    ⟨List.nodup_singleton main_url, by
      intro u hu
      simp only [crawl_init, List.mem_singleton] at hu
      simp [crawl_init, hu]⟩
    (fun t ht _ => crawl_step_hist cfg env t ht) s h

/-- C8 witness: the invariant after the first processed page of the small
fixture (three fresh URLs enqueued exactly once each). -/
theorem C8_no_duplicate_enqueue_witness :
    (crawl_step cfgSmall envSmall (crawl_init "http://example.com/")).enqueuedHist.Nodup
    ∧ ∀ u ∈ (crawl_step cfgSmall envSmall
        (crawl_init "http://example.com/")).enqueuedHist,
        u ∈ (crawl_step cfgSmall envSmall
          (crawl_init "http://example.com/")).discovered_urls :=
  C8_no_duplicate_enqueue cfgSmall envSmall "http://example.com/" _
    (CrawlReach.step CrawlReach.init (by decide))

end WebsiteAnalyzer
